import Mathlib

/-!
Verification development for the provider-search repository: the persona-based
reranking core (feature normalization, score blending, deterministic sorting,
request validation) and the React front-end helpers (persona fetching, search
submission, persona selection).  The reranker and feature extractor are
modelled over exact rationals (and reals where a logarithm is required); the
front-end handlers are modelled as pure functions from their inputs to the
callback invocations they perform.
-/

namespace ProviderSearch

/-! ## Generic insertion sort on a boolean comparator -/

/-- Insert an element into a list, placing it before the first element it
compares at-or-before under the comparator. -/
def insertOrd {α : Type} (le : α → α → Bool) (a : α) : List α → List α
  | [] => [a]
  | b :: bs => if le a b then a :: b :: bs else b :: insertOrd le a bs

/-- Insertion sort with a boolean comparator. -/
def sortOrd {α : Type} (le : α → α → Bool) : List α → List α
  | [] => []
  | a :: as => insertOrd le a (sortOrd le as)

theorem insertOrd_perm {α : Type} (le : α → α → Bool) (a : α) (l : List α) :
    (insertOrd le a l).Perm (a :: l) := by
  induction l with
  | nil => simp [insertOrd]
  | cons b bs ih =>
      by_cases h : le a b = true
      · simp [insertOrd, h]
      · simp only [insertOrd, h, if_false, Bool.false_eq_true]
        exact ((ih.cons b).trans (List.Perm.swap a b bs))

theorem sortOrd_perm {α : Type} (le : α → α → Bool) (l : List α) :
    (sortOrd le l).Perm l := by
  induction l with
  | nil => simp [sortOrd]
  | cons a as ih =>
      exact (insertOrd_perm le a (sortOrd le as)).trans (ih.cons a)

theorem pairwise_insertOrd {α : Type} (le : α → α → Bool)
    (htot : ∀ x y, le x y = true ∨ le y x = true)
    (htrans : ∀ x y z, le x y = true → le y z = true → le x z = true)
    (a : α) (l : List α) (hl : l.Pairwise (fun x y => le x y = true)) :
    (insertOrd le a l).Pairwise (fun x y => le x y = true) := by
  induction l with
  | nil => simp [insertOrd]
  | cons b bs ih =>
      rcases List.pairwise_cons.mp hl with ⟨hb, hbs⟩
      by_cases h : le a b = true
      · simp only [insertOrd, h, if_true]
        refine List.pairwise_cons.mpr ⟨?_, hl⟩
        intro y hy
        rcases List.mem_cons.mp hy with rfl | hy
        · exact h
        · exact htrans a b y h (hb y hy)
      · have hba : le b a = true := (htot a b).resolve_left h
        simp only [insertOrd, h, if_false, Bool.false_eq_true]
        refine List.pairwise_cons.mpr ⟨?_, ih hbs⟩
        intro y hy
        have hy2 := (insertOrd_perm le a bs).mem_iff.mp hy
        rcases List.mem_cons.mp hy2 with rfl | hy3
        · exact hba
        · exact hb y hy3

theorem pairwise_sortOrd {α : Type} (le : α → α → Bool)
    (htot : ∀ x y, le x y = true ∨ le y x = true)
    (htrans : ∀ x y z, le x y = true → le y z = true → le x z = true)
    (l : List α) : (sortOrd le l).Pairwise (fun x y => le x y = true) := by
  induction l with
  | nil => simp [sortOrd]
  | cons a as ih => exact pairwise_insertOrd le htot htrans a (sortOrd le as) ih

theorem map_insertOrd {α β : Type} (le : α → α → Bool) (le2 : β → β → Bool)
    (f : α → β) (hf : ∀ x y, le2 (f x) (f y) = le x y) (a : α) (l : List α) :
    (insertOrd le a l).map f = insertOrd le2 (f a) (l.map f) := by
  induction l with
  | nil => simp [insertOrd]
  | cons b bs ih =>
      by_cases h : le a b = true
      · simp [insertOrd, h, hf]
      · simp only [insertOrd, h, if_false, Bool.false_eq_true, List.map_cons, hf, ih]

theorem map_sortOrd {α β : Type} (le : α → α → Bool) (le2 : β → β → Bool)
    (f : α → β) (hf : ∀ x y, le2 (f x) (f y) = le x y) (l : List α) :
    (sortOrd le l).map f = sortOrd le2 (l.map f) := by
  induction l with
  | nil => simp [sortOrd]
  | cons a as ih =>
      simp only [sortOrd, List.map_cons, map_insertOrd le le2 f hf, ih]

theorem sortOrd_of_pairwise {α : Type} (le : α → α → Bool) (l : List α)
    (hl : l.Pairwise (fun x y => le x y = true)) : sortOrd le l = l := by
  induction l with
  | nil => simp [sortOrd]
  | cons a as ih =>
      rcases List.pairwise_cons.mp hl with ⟨ha, has⟩
      have hrec : sortOrd le as = as := ih has
      simp only [sortOrd, hrec]
      cases as with
      | nil => simp [insertOrd]
      | cons b bs => simp [insertOrd, ha b (List.mem_cons_self b bs)]

/-! ## Data model (spec §3)

The fixed, closed set of feature keys of a FeatureVector; the spec's design
notes call for an enumerated key set. -/

inductive FeatureKey : Type
  | distance_miles
  | availability_score
  | wait_days
  | appointments_7d
  | appointments_14d
  | appointments_30d
  | evening_hours
  | weekend_hours
  | telehealth_available
  | average_rating
  | num_reviews
  | years_experience
  | has_rating
  | network_breadth
  | in_network_bcbs
  | in_network_uhc
  | accepts_medicare
  | accepts_medicaid
  | speaks_spanish
  | speaks_chinese
  | accepting_new_patients
deriving DecidableEq

/-- A dynamic raw attribute value: a (finite) number, a boolean, or a
non-numeric/NaN value. -/
inductive AttrValue : Type
  | num (q : ℚ)
  | boolVal (b : Bool)
  | nan
deriving DecidableEq

/-- The raw attribute record of one provider: a string-keyed dynamic map. -/
abbrev RawAttrs := List (String × AttrValue)

/-- A normalized feature vector: feature key to value.  The reranker is
modelled over exact rationals. -/
abbrev FeatureVec := List (FeatureKey × ℚ)

/-- Modelled from the spec: reranker.py is not under src/.  Per the spec §2
the Reranker is "given a candidate set (each with baseline score + normalized
features)", so a candidate carries its provider id, baseline retrieval score
and already-normalized feature vector. -/
structure Candidate : Type where
  providerId : String
  baselineScore : ℚ
  features : FeatureVec
deriving DecidableEq

/-- Modelled from the spec (§3 ScoredCandidate): the per-request, derived
record produced by the Reranker. -/
@[ext] structure ScoredCandidate : Type where
  providerId : String
  baselineScoreNormalized : ℚ
  personaScore : ℚ
  combinedScore : ℚ
  originalRank : ℕ
deriving DecidableEq

/-- Modelled from the spec (§3 PersonaProfile): persona_*.json / the Persona
Registry entries; the loader flattens category groupings into one
feature-key→weight map. -/
structure PersonaProfile : Type where
  id : String
  displayName : String
  description : String
  priorityOrder : List String
  featureWeights : FeatureVec
deriving DecidableEq

/-- Modelled from the spec (§7 error taxonomy, restricted to the errors the
rerank contract can return). -/
inductive RerankError : Type
  | validation
  | notFound
deriving DecidableEq

/-! ## Reranker (spec §4.3), modelled from the spec: reranker.py is not
under src/. -/

/-- Feature lookup in a feature vector; an absent key contributes 0 (the spec
treats omitted features as not contributing). -/
def featureAt (fv : FeatureVec) (k : FeatureKey) : ℚ :=
  match fv.find? (fun p => decide (p.1 = k)) with
  | some p => p.2
  | none => 0

/-- Modelled from the spec (§4.3 step 5):
personaScore = Σ over weighted keys (featureVector[key] * weight),
with no normalization of the persona score itself. -/
def personaScoreOf (w : FeatureVec) (fv : FeatureVec) : ℚ :=
  (w.map (fun kw => featureAt fv kw.1 * kw.2)).sum

/-- Minimum of a list of rationals (0 for the empty list, which the reranker
never consults). -/
def listMin : List ℚ → ℚ
  | [] => 0
  | q :: qs => qs.foldl min q

/-- Maximum of a list of rationals (0 for the empty list). -/
def listMax : List ℚ → ℚ
  | [] => 0
  | q :: qs => qs.foldl max q

/-- Minimum baseline score across the current candidate set. -/
def minBaseline (cs : List Candidate) : ℚ :=
  listMin (cs.map (fun c => c.baselineScore))

/-- Maximum baseline score across the current candidate set. -/
def maxBaseline (cs : List Candidate) : ℚ :=
  listMax (cs.map (fun c => c.baselineScore))

/-- Modelled from the spec (§4.3 step 3): min–max normalization of the
baseline score across the current candidate set, with norm = 1.0 for all
candidates when max = min. -/
def normFun (cs : List Candidate) : ℚ → ℚ := fun s =>
  if maxBaseline cs = minBaseline cs then 1
  else (s - minBaseline cs) / (maxBaseline cs - minBaseline cs)

/-- Score one candidate at input-order index i (spec §4.3 steps 2–6). -/
def mkScored (w : FeatureVec) (alpha : ℚ) (norm : ℚ → ℚ) (c : Candidate)
    (i : ℕ) : ScoredCandidate :=
  { providerId := c.providerId
    baselineScoreNormalized := norm c.baselineScore
    personaScore := personaScoreOf w c.features
    combinedScore :=
      alpha * norm c.baselineScore + (1 - alpha) * personaScoreOf w c.features
    originalRank := i }

/-- Score every candidate, recording originalRank as the 0-based input-order
index starting from i. -/
def scoreWith (w : FeatureVec) (alpha : ℚ) (norm : ℚ → ℚ) :
    ℕ → List Candidate → List ScoredCandidate
  | _, [] => []
  | i, c :: cs => mkScored w alpha norm c i :: scoreWith w alpha norm (i + 1) cs

/-- Score the whole candidate set with the set-wide min–max normalizer. -/
def scoreAll (w : FeatureVec) (alpha : ℚ) (cs : List Candidate) :
    List ScoredCandidate :=
  scoreWith w alpha (normFun cs) 0 cs

/-- Modelled from the spec (§4.3 step 7): sort key — descending combinedScore,
ties broken by ascending originalRank; the provider id is not consulted. -/
def rankLE (a b : ScoredCandidate) : Bool :=
  decide (b.combinedScore < a.combinedScore ∨
    (a.combinedScore = b.combinedScore ∧ a.originalRank ≤ b.originalRank))

/-- Modelled from the spec (§4.3): the rerank contract.  reranker.py is not
under src/; this follows the spec's algorithm steps 1–8 literally:
validate alpha/k, resolve the optional persona (no persona means the persona
term contributes nothing, via an empty weight map), score, sort, truncate. -/
def rerank (registry : List PersonaProfile) (cs : List Candidate) (k : ℤ)
    (personaId : Option String) (alpha : ℚ) :
    Except RerankError (List ScoredCandidate) :=
  if (alpha < 0 ∨ 1 < alpha) ∨ (k < 1 ∨ 100 < k) then .error .validation
  else
    match personaId with
    | none => .ok ((sortOrd rankLE (scoreAll [] alpha cs)).take k.toNat)
    | some pid =>
        match registry.find? (fun p => p.id == pid) with
        | none => .error .notFound
        | some p =>
            .ok ((sortOrd rankLE (scoreAll p.featureWeights alpha cs)).take
              k.toNat)

/-- Rename the provider id of a candidate (used to state that provider ids
are never consulted as a sort key). -/
def renameCand (f : String → String) (c : Candidate) : Candidate :=
  { c with providerId := f c.providerId }

/-- Rename the provider id of a scored candidate. -/
def renameScored (f : String → String) (sc : ScoredCandidate) : ScoredCandidate :=
  { sc with providerId := f sc.providerId }

/-- Replace the persona score of a scored candidate by 0 (relates a
persona run at alpha = 1 to the corresponding no-persona run). -/
def zeroPersona (sc : ScoredCandidate) : ScoredCandidate :=
  { sc with personaScore := 0 }

/-! ## Feature Extractor (spec §4.1), modelled from the spec:
feature_extractor.py is not under src/.  The review-count rule uses a real
logarithm, so the extractor is real-valued. -/

/-- The raw source-attribute name of each feature key. -/
def featureName : FeatureKey → String
  | .distance_miles => "distance_miles"
  | .availability_score => "availability_score"
  | .wait_days => "wait_days"
  | .appointments_7d => "appointments_7d"
  | .appointments_14d => "appointments_14d"
  | .appointments_30d => "appointments_30d"
  | .evening_hours => "evening_hours"
  | .weekend_hours => "weekend_hours"
  | .telehealth_available => "telehealth_available"
  | .average_rating => "average_rating"
  | .num_reviews => "num_reviews"
  | .years_experience => "years_experience"
  | .has_rating => "has_rating"
  | .network_breadth => "network_breadth"
  | .in_network_bcbs => "in_network_bcbs"
  | .in_network_uhc => "in_network_uhc"
  | .accepts_medicare => "accepts_medicare"
  | .accepts_medicaid => "accepts_medicaid"
  | .speaks_spanish => "speaks_spanish"
  | .speaks_chinese => "speaks_chinese"
  | .accepting_new_patients => "accepting_new_patients"

/-- Look up a raw attribute by name. -/
def lookupRaw (raw : RawAttrs) (k : String) : Option AttrValue :=
  match raw.find? (fun p => p.1 == k) with
  | some p => some p.2
  | none => none

/-- The numeric value of a raw attribute; a missing, boolean, or
non-numeric/NaN value yields none (spec §4.1: non-numeric/NaN is treated as
missing). -/
def getNum (raw : RawAttrs) (k : String) : Option ℚ :=
  match lookupRaw raw k with
  | some (.num q) => some q
  | _ => none

/-- The boolean value of a raw attribute; a missing or non-boolean value
yields false (spec §4.1: missing boolean defaults to absent=false). -/
def getBool (raw : RawAttrs) (k : String) : Bool :=
  match lookupRaw raw k with
  | some (.boolVal b) => b
  | _ => false

/-- Clamp a real number to [0,1]. -/
noncomputable def clamp01 (x : ℝ) : ℝ := max 0 (min x 1)

/-- Modelled from the spec: the configured ceiling of the review-count
log-scale rule ("maxObservedOrConfiguredCeiling"); the spec's design notes
recommend a configured constant, fixed here at 1000 (the report's stated
review-count range). -/
def reviewCeiling : ℚ := 1000

/-- Apply a numeric normalization rule, defaulting to the neutral 0.5 when
the source value is missing or non-numeric (spec §4.1 default policy). -/
noncomputable def numFeature (raw : RawAttrs) (k : String) (rule : ℚ → ℝ) : ℝ :=
  match getNum raw k with
  | some v => rule v
  | none => 1 / 2

/-- Apply the boolean rule: 1.0 if true else 0.0, with missing defaulting to
false (spec §4.1). -/
noncomputable def boolFeature (raw : RawAttrs) (k : String) : ℝ :=
  if getBool raw k then 1 else 0

/-- Modelled from the spec (§4.1): feature_extractor.py is not under src/.
extract(rawAttributes) → FeatureVector, one normalized value per feature key:
distance and wait time invert-and-cap (caps 100 miles / 30 days), rating
value/5 clamped, review count log(1+v)/log(1+ceiling), years of experience
linear capped at 50, appointment slots linear with max 100, percentages and
the availability composite passed through clamped to [0,1], booleans 1.0/0.0.
Total: missing or non-numeric sources resolve to the documented defaults. -/
noncomputable def extract (raw : RawAttrs) : FeatureKey → ℝ
  | .distance_miles =>
      numFeature raw (featureName .distance_miles)
        (fun v => 1 - min ((v : ℝ)) 100 / 100)
  | .wait_days =>
      numFeature raw (featureName .wait_days)
        (fun v => 1 - min ((v : ℝ)) 30 / 30)
  | .average_rating =>
      numFeature raw (featureName .average_rating)
        (fun v => clamp01 ((v : ℝ) / 5))
  | .num_reviews =>
      numFeature raw (featureName .num_reviews)
        (fun v => Real.log (1 + (v : ℝ)) / Real.log (1 + (reviewCeiling : ℝ)))
  | .years_experience =>
      numFeature raw (featureName .years_experience)
        (fun v => min ((v : ℝ)) 50 / 50)
  | .appointments_7d =>
      numFeature raw (featureName .appointments_7d)
        (fun v => min ((v : ℝ)) 100 / 100)
  | .appointments_14d =>
      numFeature raw (featureName .appointments_14d)
        (fun v => min ((v : ℝ)) 100 / 100)
  | .appointments_30d =>
      numFeature raw (featureName .appointments_30d)
        (fun v => min ((v : ℝ)) 100 / 100)
  | .availability_score =>
      numFeature raw (featureName .availability_score)
        (fun v => clamp01 ((v : ℝ)))
  | .network_breadth =>
      numFeature raw (featureName .network_breadth)
        (fun v => clamp01 ((v : ℝ)))
  | .evening_hours => boolFeature raw (featureName .evening_hours)
  | .weekend_hours => boolFeature raw (featureName .weekend_hours)
  | .telehealth_available => boolFeature raw (featureName .telehealth_available)
  | .has_rating => boolFeature raw (featureName .has_rating)
  | .in_network_bcbs => boolFeature raw (featureName .in_network_bcbs)
  | .in_network_uhc => boolFeature raw (featureName .in_network_uhc)
  | .accepts_medicare => boolFeature raw (featureName .accepts_medicare)
  | .accepts_medicaid => boolFeature raw (featureName .accepts_medicaid)
  | .speaks_spanish => boolFeature raw (featureName .speaks_spanish)
  | .speaks_chinese => boolFeature raw (featureName .speaks_chinese)
  | .accepting_new_patients =>
      boolFeature raw (featureName .accepting_new_patients)

/-- The numeric value at a key, when present, is nonnegative. -/
def nonnegNum (raw : RawAttrs) (k : String) : Bool :=
  match getNum raw k with
  | some v => decide (0 ≤ v)
  | none => true

/-- The numeric value at a key, when present, lies between lo and hi. -/
def boundedNum (raw : RawAttrs) (k : String) (lo hi : ℚ) : Bool :=
  match getNum raw k with
  | some v => decide (lo ≤ v ∧ v ≤ hi)
  | none => true

/-- Well-formedness of a raw attribute record: every present numeric source
value lies in its natural domain (nonnegative distances, waits, appointment
counts and experience; review count within the configured ceiling).  The
rating, availability and percentage rules clamp, so they need no bound. -/
def wellFormedRaw (raw : RawAttrs) : Bool :=
  nonnegNum raw "distance_miles" && nonnegNum raw "wait_days" &&
    nonnegNum raw "years_experience" && nonnegNum raw "appointments_7d" &&
    nonnegNum raw "appointments_14d" && nonnegNum raw "appointments_30d" &&
    boundedNum raw "num_reviews" 0 reviewCeiling

/-- The feature keys whose extraction rule is numeric. -/
def numericFeatureKeys : List FeatureKey :=
  [.distance_miles, .wait_days, .average_rating, .num_reviews,
   .years_experience, .appointments_7d, .appointments_14d, .appointments_30d,
   .availability_score, .network_breadth]

/-- The feature keys whose extraction rule is boolean. -/
def boolFeatureKeys : List FeatureKey :=
  [.evening_hours, .weekend_hours, .telehealth_available, .has_rating,
   .in_network_bcbs, .in_network_uhc, .accepts_medicare, .accepts_medicaid,
   .speaks_spanish, .speaks_chinese, .accepting_new_patients]

/-- A sample persona profile, used to evaluate the reranker on concrete
inputs. -/
def samplePersona : PersonaProfile :=
  { id := "sarah", displayName := "Sarah - Busy Professional",
    description := "Prioritizes convenience and availability",
    priorityOrder := ["convenience", "quality", "cost", "demographic",
      "religious"],
    featureWeights := [(FeatureKey.average_rating, 1 / 2)] }

/-- A one-persona sample registry. -/
def sampleRegistry : List PersonaProfile := [samplePersona]

/-- A two-candidate sample set in descending baseline order. -/
def sampleCandidates : List Candidate :=
  [{ providerId := "a", baselineScore := 2,
     features := [(FeatureKey.average_rating, 1)] },
   { providerId := "b", baselineScore := 1,
     features := [(FeatureKey.average_rating, 0)] }]

/-- A two-candidate sample set with uniform baseline scores. -/
def sampleUniform : List Candidate :=
  [{ providerId := "a", baselineScore := 5, features := [] },
   { providerId := "b", baselineScore := 5, features := [] }]

/-- The scored output of the persona run on the sample set at alpha = 1/2. -/
def sampleScored : List ScoredCandidate :=
  [{ providerId := "a", baselineScoreNormalized := 1, personaScore := 1 / 2,
     combinedScore := 3 / 4, originalRank := 0 },
   { providerId := "b", baselineScoreNormalized := 0, personaScore := 0,
     combinedScore := 0, originalRank := 1 }]

/-- The scored output of the no-persona run on the sample set at
alpha = 1/2. -/
def sampleScoredNone : List ScoredCandidate :=
  [{ providerId := "a", baselineScoreNormalized := 1, personaScore := 0,
     combinedScore := 1 / 2, originalRank := 0 },
   { providerId := "b", baselineScoreNormalized := 0, personaScore := 0,
     combinedScore := 0, originalRank := 1 }]

/-- The scored output of the no-persona run on the uniform sample set at
alpha = 1/2. -/
def sampleScoredUniform : List ScoredCandidate :=
  [{ providerId := "a", baselineScoreNormalized := 1, personaScore := 0,
     combinedScore := 1 / 2, originalRank := 0 },
   { providerId := "b", baselineScoreNormalized := 1, personaScore := 0,
     combinedScore := 1 / 2, originalRank := 1 }]

/-- A sample well-formed raw attribute record. -/
def sampleRaw : RawAttrs :=
  [("average_rating", AttrValue.num 4), ("distance_miles", AttrValue.num 12),
   ("evening_hours", AttrValue.boolVal true),
   ("num_reviews", AttrValue.num 150)]

/-- A sample raw attribute record whose average_rating is non-numeric and
whose boolean attributes are absent. -/
def sampleRawMissing : RawAttrs := [("average_rating", AttrValue.nan)]

/-! ## Front-end (src/provider-search-front-end and src/unnamed/part_000) -/

/-- A persona object of the GET /personas response body, as the client reads
it: id plus possibly-absent name and description fields. -/
structure ApiPersona : Type where
  id : String
  name : Option String
  description : Option String
deriving DecidableEq

/-- The entry shape produced by the client-side getPersonas. -/
structure ClientPersona : Type where
  id : String
  name : String
deriving DecidableEq

/-- A parsed GET /personas response body; personas is none when the body has
no personas array (the controller's Array.isArray check). -/
structure PersonasResponse : Type where
  personas : Option (List ApiPersona)
deriving DecidableEq

/-- JavaScript x || d on an optional string: an absent or empty (falsy)
string falls back to the default. -/
def jsOrString (v : Option String) (d : String) : String :=
  match v with
  | some s => if s = "" then d else s
  | none => d

/-- getPersonas of provider-search-controller.js, applied to a successful
response body: personas := Array.isArray(body.personas) ? body.personas : [];
return personas.map(p => ({id: p.id, name: p.name || p.id})). -/
def getPersonas (body : PersonasResponse) : List ClientPersona :=
  (match body.personas with
   | some l => l
   | none => ([] : List ApiPersona)).map
    (fun (p : ApiPersona) => { id := p.id, name := jsOrString p.name p.id })

/-- Strip leading and trailing whitespace characters from a character list
(the semantics of JavaScript String.prototype.trim, over the characters the
model represents). -/
def trimChars (l : List Char) : List Char :=
  ((l.dropWhile Char.isWhitespace).reverse.dropWhile Char.isWhitespace).reverse

/-- JavaScript query.trim(): strip leading and trailing whitespace. -/
def trimString (s : String) : String := String.mk (trimChars s.data)

/-- submitSearch of the SearchBar defined alongside the API controller
(provider-search-controller.js lines 33–37): trim the query; return without
calling onSearch when the trimmed text is empty; otherwise call
onSearch(trimmed, selectedPersona).  The result models the onSearch
invocation: none = not invoked, some (q, p) = invoked with those arguments. -/
def submitSearch (query persona : String) : Option (String × String) :=
  let trimmed := trimString query
  if trimmed = "" then none else some (trimmed, persona)

/-- The SearchBar keydown handler: Enter triggers submitSearch (after
preventDefault); any other key does not invoke onSearch. -/
def handleKeyDown (key query persona : String) : Option (String × String) :=
  if key = "Enter" then submitSearch query persona else none

/-- A sample personas list as the API would return it, with one name absent
to exercise the name-or-id fallback. -/
def sampleApiPersonas : List ApiPersona :=
  [{ id := "sarah", name := some "Sarah - Busy Professional",
     description := some "Prioritizes convenience and availability" },
   { id := "marcus", name := none,
     description := some "Prioritizes cost" }]

/-- A sample GET /personas response body. -/
def samplePersonasBody : PersonasResponse := { personas := some sampleApiPersonas }

/-- The PersonaSelector component state (src/unnamed/part_000): personas
list, selected persona id, loading flag, error message. -/
structure SelectorState : Type where
  personas : List ClientPersona
  selectedPersona : String
  loading : Bool
  error : Option String
deriving DecidableEq

/-- The initial PersonaSelector state: useState(value || ""). -/
def initialSelectorState (value : Option String) : SelectorState :=
  { personas := [], selectedPersona := jsOrString value "", loading := true,
    error := none }

/-- The mount effect of PersonaSelector on a successful getPersonas
(src/unnamed/part_000 lines 15–37): setPersonas(data); when data is nonempty,
initialPersona := value || data[0].id, setSelectedPersona(initialPersona) and
onPersonaChange?.(initialPersona); setError(null); setLoading(false).  The
second component models the onPersonaChange invocation payload. -/
def fetchPersonasSuccess (value : Option String) (data : List ClientPersona) :
    SelectorState × Option String :=
  match data with
  | [] => ({ initialSelectorState value with loading := false }, none)
  | p :: rest =>
      let initial := jsOrString value p.id
      ({ personas := p :: rest, selectedPersona := initial, loading := false,
         error := none }, some initial)

/-! ## Reranker lemmas -/

theorem rankLE_iff (a b : ScoredCandidate) :
    rankLE a b = true ↔
      (b.combinedScore < a.combinedScore ∨
        (a.combinedScore = b.combinedScore ∧ a.originalRank ≤ b.originalRank)) := by
  simp [rankLE]

theorem rankLE_total (a b : ScoredCandidate) :
    rankLE a b = true ∨ rankLE b a = true := by
  rw [rankLE_iff, rankLE_iff]
  rcases lt_trichotomy a.combinedScore b.combinedScore with h | h | h
  · exact Or.inr (Or.inl h)
  · rcases le_total a.originalRank b.originalRank with hr | hr
    · exact Or.inl (Or.inr ⟨h, hr⟩)
    · exact Or.inr (Or.inr ⟨h.symm, hr⟩)
  · exact Or.inl (Or.inl h)

theorem rankLE_trans (a b c : ScoredCandidate) :
    rankLE a b = true → rankLE b c = true → rankLE a c = true := by
  rw [rankLE_iff, rankLE_iff, rankLE_iff]
  rintro (h1 | ⟨h1, hr1⟩) (h2 | ⟨h2, hr2⟩)
  · exact Or.inl (h2.trans h1)
  · exact Or.inl (h2 ▸ h1)
  · exact Or.inl (lt_of_lt_of_eq h2 h1.symm)
  · exact Or.inr ⟨h1.trans h2, hr1.trans hr2⟩

theorem mem_scoreWith {w : FeatureVec} {alpha : ℚ} {norm : ℚ → ℚ}
    {sc : ScoredCandidate} :
    ∀ (i : ℕ) (cs : List Candidate), sc ∈ scoreWith w alpha norm i cs →
      ∃ j c, cs[j]? = some c ∧ sc = mkScored w alpha norm c (i + j) := by
  intro i cs
  induction cs generalizing i with
  | nil => intro h; simp [scoreWith] at h
  | cons c cs ih =>
      intro h
      simp only [scoreWith] at h
      rcases List.mem_cons.mp h with rfl | h2
      · exact ⟨0, c, List.getElem?_cons_zero, by simp⟩
      · rcases ih (i + 1) h2 with ⟨j, d, hj, hsc⟩
        refine ⟨j + 1, d, by simpa using hj, ?_⟩
        rw [hsc]
        have harith : i + 1 + j = i + (j + 1) := by omega
        rw [harith]

theorem scoreWith_rank_lb {w : FeatureVec} {alpha : ℚ} {norm : ℚ → ℚ}
    {sc : ScoredCandidate} (i : ℕ) (cs : List Candidate)
    (h : sc ∈ scoreWith w alpha norm i cs) : i ≤ sc.originalRank := by
  rcases mem_scoreWith i cs h with ⟨j, c, hj, rfl⟩
  simp [mkScored]

theorem scoreWith_rank_lt (w : FeatureVec) (alpha : ℚ) (norm : ℚ → ℚ) :
    ∀ (i : ℕ) (cs : List Candidate),
      (scoreWith w alpha norm i cs).Pairwise
        (fun a b => a.originalRank < b.originalRank) := by
  intro i cs
  induction cs generalizing i with
  | nil => simp [scoreWith]
  | cons c cs ih =>
      simp only [scoreWith]
      refine List.pairwise_cons.mpr ⟨?_, ih (i + 1)⟩
      intro b hb
      have hlb := scoreWith_rank_lb (i + 1) cs hb
      simp only [mkScored]
      omega

theorem scoreWith_map_rank (w : FeatureVec) (alpha : ℚ) (norm : ℚ → ℚ) :
    ∀ (i : ℕ) (cs : List Candidate),
      (scoreWith w alpha norm i cs).map (fun sc => sc.originalRank) =
        List.range' i cs.length := by
  intro i cs
  induction cs generalizing i with
  | nil => simp [scoreWith]
  | cons c cs ih =>
      simp only [scoreWith, List.map_cons, List.length_cons, List.range'_succ,
        ih (i + 1)]
      rfl

theorem foldl_min_le (qs : List ℚ) : ∀ q : ℚ, qs.foldl min q ≤ q := by
  induction qs with
  | nil => intro q; simp
  | cons r rs ih =>
      intro q
      calc (r :: rs).foldl min q = rs.foldl min (min q r) := rfl
        _ ≤ min q r := ih (min q r)
        _ ≤ q := min_le_left q r

theorem le_foldl_max (qs : List ℚ) : ∀ q : ℚ, q ≤ qs.foldl max q := by
  induction qs with
  | nil => intro q; simp
  | cons r rs ih =>
      intro q
      calc q ≤ max q r := le_max_left q r
        _ ≤ rs.foldl max (max q r) := ih (max q r)
        _ = (r :: rs).foldl max q := rfl

theorem minBaseline_le_maxBaseline (cs : List Candidate) :
    minBaseline cs ≤ maxBaseline cs := by
  cases cs with
  | nil => simp [minBaseline, maxBaseline, listMin, listMax]
  | cons c cs =>
      unfold minBaseline maxBaseline listMin listMax
      simp only [List.map_cons]
      exact le_trans (foldl_min_le _ c.baselineScore)
        (le_foldl_max _ c.baselineScore)

theorem normFun_mono (cs : List Candidate) {s t : ℚ} (h : s ≤ t) :
    normFun cs s ≤ normFun cs t := by
  unfold normFun
  by_cases heq : maxBaseline cs = minBaseline cs
  · simp [heq]
  · rw [if_neg heq, if_neg heq]
    have hlt : minBaseline cs < maxBaseline cs :=
      lt_of_le_of_ne (minBaseline_le_maxBaseline cs) (fun hc => heq hc.symm)
    exact div_le_div_of_nonneg_right (sub_le_sub_right h _) (by linarith)

/-- Every element of a sorted-and-truncated scored list arises from scoring a
candidate of the input set at its original rank. -/
theorem mem_rerank_build (w : FeatureVec) (alpha : ℚ) (cs : List Candidate)
    (n : ℕ) (sc : ScoredCandidate)
    (h : sc ∈ (sortOrd rankLE (scoreAll w alpha cs)).take n) :
    ∃ c, cs[sc.originalRank]? = some c ∧
      sc = mkScored w alpha (normFun cs) c sc.originalRank := by
  have h1 : sc ∈ sortOrd rankLE (scoreAll w alpha cs) :=
    (List.take_sublist n _).subset h
  have h2 : sc ∈ scoreAll w alpha cs :=
    (sortOrd_perm rankLE _).mem_iff.mp h1
  rcases mem_scoreWith 0 cs h2 with ⟨j, c, hj, hsc⟩
  have hrank : sc.originalRank = j := by rw [hsc]; simp [mkScored]
  refine ⟨c, ?_, ?_⟩
  · rw [hrank]; exact hj
  · rw [hrank]; rw [hsc]; simp [mkScored]

theorem sorted_take_strict (w : FeatureVec) (alpha : ℚ) (cs : List Candidate)
    (n : ℕ) :
    ((sortOrd rankLE (scoreAll w alpha cs)).take n).Pairwise
      (fun a b => b.combinedScore < a.combinedScore ∨
        (a.combinedScore = b.combinedScore ∧
          a.originalRank < b.originalRank)) := by
  have h1 : (sortOrd rankLE (scoreAll w alpha cs)).Pairwise
      (fun a b => rankLE a b = true) :=
    pairwise_sortOrd rankLE rankLE_total rankLE_trans _
  have h2 : (scoreAll w alpha cs).Pairwise
      (fun a b => a.originalRank ≠ b.originalRank) :=
    (scoreWith_rank_lt w alpha (normFun cs) 0 cs).imp (fun h => Nat.ne_of_lt h)
  have h3 : (sortOrd rankLE (scoreAll w alpha cs)).Pairwise
      (fun a b => a.originalRank ≠ b.originalRank) :=
    ((sortOrd_perm rankLE _).pairwise_iff (fun h => h.symm)).mpr h2
  have h4 := h1.and h3
  refine List.Pairwise.sublist (List.take_sublist n _) (h4.imp ?_)
  rintro a b ⟨hle, hne⟩
  rcases (rankLE_iff a b).mp hle with hlt | ⟨heq, hr⟩
  · exact Or.inl hlt
  · exact Or.inr ⟨heq, lt_of_le_of_ne hr hne⟩

theorem rerank_valid_cond {alpha : ℚ} {k : ℤ} (h0 : 0 ≤ alpha)
    (h1 : alpha ≤ 1) (hk1 : 1 ≤ k) (hk2 : k ≤ 100) :
    ¬((alpha < 0 ∨ 1 < alpha) ∨ (k < 1 ∨ 100 < k)) := by
  push_neg
  exact ⟨⟨h0, h1⟩, hk1, hk2⟩

theorem rerank_none_eq (reg : List PersonaProfile) (cs : List Candidate)
    (k : ℤ) (alpha : ℚ)
    (hcond : ¬((alpha < 0 ∨ 1 < alpha) ∨ (k < 1 ∨ 100 < k))) :
    rerank reg cs k none alpha =
      .ok ((sortOrd rankLE (scoreAll [] alpha cs)).take k.toNat) := by
  unfold rerank
  rw [if_neg hcond]

theorem rerank_some_eq (reg : List PersonaProfile) (cs : List Candidate)
    (k : ℤ) (pid : String) (alpha : ℚ) (p : PersonaProfile)
    (hp : reg.find? (fun q => q.id == pid) = some p)
    (hcond : ¬((alpha < 0 ∨ 1 < alpha) ∨ (k < 1 ∨ 100 < k))) :
    rerank reg cs k (some pid) alpha =
      .ok ((sortOrd rankLE (scoreAll p.featureWeights alpha cs)).take
        k.toNat) := by
  unfold rerank
  rw [if_neg hcond]
  simp only [hp]

theorem rerank_ok_shape (reg : List PersonaProfile) (cs : List Candidate)
    (k : ℤ) (pid : Option String) (alpha : ℚ) (l : List ScoredCandidate)
    (h : rerank reg cs k pid alpha = .ok l) :
    ∃ w, l = (sortOrd rankLE (scoreAll w alpha cs)).take k.toNat := by
  unfold rerank at h
  by_cases hcond : ((alpha < 0 ∨ 1 < alpha) ∨ (k < 1 ∨ 100 < k))
  · rw [if_pos hcond] at h; cases h
  · rw [if_neg hcond] at h
    cases pid with
    | none =>
        simp only [Except.ok.injEq] at h
        exact ⟨[], h.symm⟩
    | some pid =>
        cases hfind : reg.find? (fun q => q.id == pid) with
        | none =>
            simp only [hfind] at h
            exact Except.noConfusion h
        | some p =>
            simp only [hfind, Except.ok.injEq] at h
            exact ⟨p.featureWeights, h.symm⟩

theorem minBaseline_rename (f : String → String) (cs : List Candidate) :
    minBaseline (cs.map (renameCand f)) = minBaseline cs := by
  unfold minBaseline
  rw [List.map_map]
  rfl

theorem maxBaseline_rename (f : String → String) (cs : List Candidate) :
    maxBaseline (cs.map (renameCand f)) = maxBaseline cs := by
  unfold maxBaseline
  rw [List.map_map]
  rfl

theorem normFun_rename (f : String → String) (cs : List Candidate) :
    normFun (cs.map (renameCand f)) = normFun cs := by
  funext s
  unfold normFun
  rw [minBaseline_rename, maxBaseline_rename]

theorem scoreWith_rename (w : FeatureVec) (alpha : ℚ) (norm : ℚ → ℚ)
    (f : String → String) :
    ∀ (i : ℕ) (cs : List Candidate),
      scoreWith w alpha norm i (cs.map (renameCand f)) =
        (scoreWith w alpha norm i cs).map (renameScored f) := by
  intro i cs
  induction cs generalizing i with
  | nil => simp [scoreWith]
  | cons c cs ih =>
      simp only [List.map_cons, scoreWith, ih (i + 1)]
      rfl

theorem scoreAll_rename (w : FeatureVec) (alpha : ℚ) (f : String → String)
    (cs : List Candidate) :
    scoreAll w alpha (cs.map (renameCand f)) =
      (scoreAll w alpha cs).map (renameScored f) := by
  unfold scoreAll
  rw [normFun_rename, scoreWith_rename]

theorem scoreWith_alpha_one_zero (w : FeatureVec) (norm : ℚ → ℚ) :
    ∀ (i : ℕ) (cs : List Candidate),
      scoreWith [] 1 norm i cs = (scoreWith w 1 norm i cs).map zeroPersona := by
  intro i cs
  induction cs generalizing i with
  | nil => simp [scoreWith]
  | cons c cs ih =>
      simp only [scoreWith, List.map_cons, ih (i + 1)]
      congr 1
      unfold mkScored zeroPersona
      ext
      · rfl
      · rfl
      · simp [personaScoreOf]
      · show (1 : ℚ) * norm c.baselineScore +
            (1 - 1) * personaScoreOf [] c.features =
          1 * norm c.baselineScore + (1 - 1) * personaScoreOf w c.features
        ring
      · rfl

theorem scoreWith_desc_sorted {alpha : ℚ} (halpha : 0 ≤ alpha)
    (norm : ℚ → ℚ) (hmono : ∀ s t : ℚ, s ≤ t → norm s ≤ norm t) :
    ∀ (i : ℕ) (cs : List Candidate),
      cs.Pairwise (fun c d => d.baselineScore ≤ c.baselineScore) →
      (scoreWith [] alpha norm i cs).Pairwise
        (fun a b => rankLE a b = true) := by
  intro i cs
  induction cs generalizing i with
  | nil => intro _; simp [scoreWith]
  | cons c cs ih =>
      intro hp
      rcases List.pairwise_cons.mp hp with ⟨hc, hcs⟩
      simp only [scoreWith]
      refine List.pairwise_cons.mpr ⟨?_, ih (i + 1) hcs⟩
      intro b hb
      obtain ⟨j, d, hj, rfl⟩ := mem_scoreWith (i + 1) cs hb
      have hd : d ∈ cs := List.getElem?_mem hj
      have hbs : d.baselineScore ≤ c.baselineScore := hc d hd
      have hnorm : norm d.baselineScore ≤ norm c.baselineScore :=
        hmono _ _ hbs
      have hcc : (mkScored [] alpha norm d (i + 1 + j)).combinedScore ≤
          (mkScored [] alpha norm c i).combinedScore := by
        simp only [mkScored, personaScoreOf, List.map_nil, List.sum_nil]
        have := mul_le_mul_of_nonneg_left hnorm halpha
        linarith
      have hrank : (mkScored [] alpha norm c i).originalRank <
          (mkScored [] alpha norm d (i + 1 + j)).originalRank := by
        simp only [mkScored]
        omega
      rw [rankLE_iff]
      rcases lt_or_eq_of_le hcc with hlt | heq
      · exact Or.inl hlt
      · exact Or.inr ⟨heq.symm, le_of_lt hrank⟩

theorem scoreWith_personaScore_nil {alpha : ℚ} {norm : ℚ → ℚ}
    {sc : ScoredCandidate} (i : ℕ) (cs : List Candidate)
    (h : sc ∈ scoreWith [] alpha norm i cs) : sc.personaScore = 0 := by
  rcases mem_scoreWith i cs h with ⟨j, c, hj, rfl⟩
  simp [mkScored, personaScoreOf]

/-! ## Claim theorems: reranker -/

/-- C1: for every candidate processed by rerank with a persona present, the
final combined score equals alpha times the min-max-normalized baseline score
plus (1 - alpha) times the persona score, where the persona score is the sum
over the persona's weighted feature keys of featureVector[key] * weight, with
no further normalization applied to the persona score. -/
theorem rerank_combined_score_formula (reg : List PersonaProfile)
    (cs : List Candidate) (k : ℤ) (pid : String) (alpha : ℚ)
    (p : PersonaProfile) (l : List ScoredCandidate)
    (hp : reg.find? (fun q => q.id == pid) = some p)
    (hok : rerank reg cs k (some pid) alpha = .ok l) :
    ∀ sc ∈ l,
      (∃ c, cs[sc.originalRank]? = some c ∧
        sc.personaScore =
          (p.featureWeights.map
            (fun kw => featureAt c.features kw.1 * kw.2)).sum) ∧
      sc.combinedScore =
        alpha * sc.baselineScoreNormalized + (1 - alpha) * sc.personaScore := by
  unfold rerank at hok
  by_cases hcond : ((alpha < 0 ∨ 1 < alpha) ∨ (k < 1 ∨ 100 < k))
  · rw [if_pos hcond] at hok
    exact Except.noConfusion hok
  · rw [if_neg hcond] at hok
    simp only [hp, Except.ok.injEq] at hok
    subst hok
    intro sc hsc
    obtain ⟨c, hc, hsc_eq⟩ :=
      mem_rerank_build p.featureWeights alpha cs k.toNat sc hsc
    refine ⟨⟨c, hc, ?_⟩, ?_⟩
    · rw [hsc_eq]; rfl
    · rw [hsc_eq]; rfl

/-- C1 witness: the formula evaluated on a concrete registry and candidate
set. -/
theorem rerank_combined_score_formula_witness :
    sampleRegistry.find? (fun q => q.id == "sarah") = some samplePersona ∧
    rerank sampleRegistry sampleCandidates 2 (some "sarah") (1 / 2) =
      .ok sampleScored ∧
    ∀ sc ∈ sampleScored,
      (∃ c, sampleCandidates[sc.originalRank]? = some c ∧
        sc.personaScore =
          (samplePersona.featureWeights.map
            (fun kw => featureAt c.features kw.1 * kw.2)).sum) ∧
      sc.combinedScore =
        (1 / 2) * sc.baselineScoreNormalized +
          (1 - 1 / 2) * sc.personaScore := by
  have h1 : sampleRegistry.find? (fun q => q.id == "sarah") =
      some samplePersona := by
    simp [sampleRegistry, samplePersona]
  have h2 : rerank sampleRegistry sampleCandidates 2 (some "sarah") (1 / 2) =
      .ok sampleScored := by
    norm_num [rerank, scoreAll, scoreWith, mkScored, personaScoreOf,
      featureAt, normFun, minBaseline, maxBaseline, listMin, listMax,
      sortOrd, insertOrd, rankLE, sampleRegistry, samplePersona,
      sampleCandidates, sampleScored]
  exact ⟨h1, h2,
    rerank_combined_score_formula sampleRegistry sampleCandidates 2 "sarah"
      (1 / 2) samplePersona sampleScored h1 h2⟩

/-- C2: rerank returns the candidates sorted in descending order of
combinedScore with ties broken by ascending originalRank, and the provider id
is never used as a sort key: renaming every provider id commutes with
rerank. -/
theorem rerank_sorted_and_id_free :
    (∀ (reg : List PersonaProfile) (cs : List Candidate) (k : ℤ)
      (pid : Option String) (alpha : ℚ) (l : List ScoredCandidate),
      rerank reg cs k pid alpha = .ok l →
      l.Pairwise (fun a b => b.combinedScore < a.combinedScore ∨
        (a.combinedScore = b.combinedScore ∧
          a.originalRank < b.originalRank))) ∧
    (∀ (f : String → String) (reg : List PersonaProfile) (cs : List Candidate)
      (k : ℤ) (pid : Option String) (alpha : ℚ),
      rerank reg (cs.map (renameCand f)) k pid alpha =
        Except.map (fun l => l.map (renameScored f))
          (rerank reg cs k pid alpha)) := by
  constructor
  · intro reg cs k pid alpha l hok
    obtain ⟨w, rfl⟩ := rerank_ok_shape reg cs k pid alpha l hok
    exact sorted_take_strict w alpha cs k.toNat
  · intro f reg cs k pid alpha
    unfold rerank
    by_cases hcond : ((alpha < 0 ∨ 1 < alpha) ∨ (k < 1 ∨ 100 < k))
    · rw [if_pos hcond, if_pos hcond]; rfl
    · rw [if_neg hcond, if_neg hcond]
      have hchain : ∀ w : FeatureVec,
          (sortOrd rankLE (scoreAll w alpha (cs.map (renameCand f)))).take
              k.toNat =
            ((sortOrd rankLE (scoreAll w alpha cs)).take k.toNat).map
              (renameScored f) := by
        intro w
        rw [scoreAll_rename,
          ← map_sortOrd rankLE rankLE (renameScored f) (fun _ _ => rfl),
          List.map_take]
      cases pid with
      | none =>
          simp only [Except.map]
          rw [hchain]
      | some pid =>
          cases hfind : reg.find? (fun q => q.id == pid) with
          | none => simp only [hfind, Except.map]
          | some p =>
              simp only [hfind, Except.map]
              rw [hchain]

/-- C2 witness: sortedness of a concrete rerank run. -/
theorem rerank_sorted_and_id_free_witness :
    rerank sampleRegistry sampleCandidates 2 none (1 / 2) =
      .ok sampleScoredNone ∧
    sampleScoredNone.Pairwise
      (fun a b => b.combinedScore < a.combinedScore ∨
        (a.combinedScore = b.combinedScore ∧
          a.originalRank < b.originalRank)) := by
  have h2 : rerank sampleRegistry sampleCandidates 2 none (1 / 2) =
      .ok sampleScoredNone := by
    norm_num [rerank, scoreAll, scoreWith, mkScored, personaScoreOf,
      featureAt, normFun, minBaseline, maxBaseline, listMin, listMax,
      sortOrd, insertOrd, rankLE, sampleCandidates, sampleScoredNone]
  exact ⟨h2,
    rerank_sorted_and_id_free.1 sampleRegistry sampleCandidates 2 none (1 / 2)
      sampleScoredNone h2⟩

/-- C5: rerank rejects with a ValidationError every call whose alpha lies
outside [0,1] or whose k lies outside [1,100] — in particular k=0, k=101,
alpha=-0.1 and alpha=1.1 — and rejects an unknown persona id with a
NotFoundError; no silent clamping occurs since an error, not a ranking, is
returned. -/
theorem rerank_validation_errors :
    (∀ (reg : List PersonaProfile) (cs : List Candidate) (k : ℤ)
      (pid : Option String) (alpha : ℚ),
      ((alpha < 0 ∨ 1 < alpha) ∨ (k < 1 ∨ 100 < k)) →
      rerank reg cs k pid alpha = .error .validation) ∧
    (∀ (reg : List PersonaProfile) (cs : List Candidate) (k : ℤ)
      (pid : String) (alpha : ℚ),
      0 ≤ alpha → alpha ≤ 1 → 1 ≤ k → k ≤ 100 →
      reg.find? (fun q => q.id == pid) = none →
      rerank reg cs k (some pid) alpha = .error .notFound) ∧
    (∀ (reg : List PersonaProfile) (cs : List Candidate) (pid : Option String)
      (alpha : ℚ), rerank reg cs 0 pid alpha = .error .validation) ∧
    (∀ (reg : List PersonaProfile) (cs : List Candidate) (pid : Option String)
      (alpha : ℚ), rerank reg cs 101 pid alpha = .error .validation) ∧
    (∀ (reg : List PersonaProfile) (cs : List Candidate) (k : ℤ)
      (pid : Option String),
      rerank reg cs k pid (-1 / 10) = .error .validation) ∧
    (∀ (reg : List PersonaProfile) (cs : List Candidate) (k : ℤ)
      (pid : Option String),
      rerank reg cs k pid (11 / 10) = .error .validation) := by
  refine ⟨?_, ?_, ?_, ?_, ?_, ?_⟩
  · intro reg cs k pid alpha h
    unfold rerank
    rw [if_pos h]
  · intro reg cs k pid alpha h0 h1 hk1 hk2 hfind
    unfold rerank
    rw [if_neg (rerank_valid_cond h0 h1 hk1 hk2)]
    simp only [hfind]
  · intro reg cs pid alpha
    unfold rerank
    rw [if_pos (Or.inr (Or.inl (by norm_num)))]
  · intro reg cs pid alpha
    unfold rerank
    rw [if_pos (Or.inr (Or.inr (by norm_num)))]
  · intro reg cs k pid
    unfold rerank
    rw [if_pos (Or.inl (Or.inl (by norm_num)))]
  · intro reg cs k pid
    unfold rerank
    rw [if_pos (Or.inl (Or.inr (by norm_num)))]

/-- C5 witness: the five rejected calls of the spec's validation property,
evaluated concretely. -/
theorem rerank_validation_errors_witness :
    rerank sampleRegistry sampleCandidates 0 none (1 / 2) =
      .error .validation ∧
    rerank sampleRegistry sampleCandidates 101 none (1 / 2) =
      .error .validation ∧
    rerank sampleRegistry sampleCandidates 20 none (-1 / 10) =
      .error .validation ∧
    rerank sampleRegistry sampleCandidates 20 none (11 / 10) =
      .error .validation ∧
    rerank sampleRegistry sampleCandidates 20 (some "unknown") (1 / 2) =
      .error .notFound := by
  have hfind : sampleRegistry.find? (fun q => q.id == "unknown") = none := by
    simp [sampleRegistry, samplePersona]
  exact ⟨rerank_validation_errors.2.2.1 sampleRegistry sampleCandidates none
      (1 / 2),
    rerank_validation_errors.2.2.2.1 sampleRegistry sampleCandidates none
      (1 / 2),
    rerank_validation_errors.2.2.2.2.1 sampleRegistry sampleCandidates 20 none,
    rerank_validation_errors.2.2.2.2.2 sampleRegistry sampleCandidates 20 none,
    rerank_validation_errors.2.1 sampleRegistry sampleCandidates 20 "unknown"
      (1 / 2) (by norm_num) (by norm_num) (by norm_num) (by norm_num) hfind⟩

/-- C6: rerank min-max normalizes the baseline scores over the current
candidate set as (score - min)/(max - min), and when max equals min it
assigns normalized baseline 1 to every candidate, so no division by a zero
denominator is ever performed. -/
theorem rerank_minmax_normalization (reg : List PersonaProfile)
    (cs : List Candidate) (k : ℤ) (pid : Option String) (alpha : ℚ)
    (l : List ScoredCandidate) (hok : rerank reg cs k pid alpha = .ok l) :
    (∀ sc ∈ l, ∃ c, cs[sc.originalRank]? = some c ∧
      sc.baselineScoreNormalized =
        (if maxBaseline cs = minBaseline cs then 1
         else (c.baselineScore - minBaseline cs) /
           (maxBaseline cs - minBaseline cs))) ∧
    (maxBaseline cs = minBaseline cs →
      ∀ sc ∈ l, sc.baselineScoreNormalized = 1) := by
  obtain ⟨w, rfl⟩ := rerank_ok_shape reg cs k pid alpha l hok
  have hmain : ∀ sc ∈ (sortOrd rankLE (scoreAll w alpha cs)).take k.toNat,
      ∃ c, cs[sc.originalRank]? = some c ∧
        sc.baselineScoreNormalized =
          (if maxBaseline cs = minBaseline cs then 1
           else (c.baselineScore - minBaseline cs) /
             (maxBaseline cs - minBaseline cs)) := by
    intro sc hsc
    obtain ⟨c, hc, hsc_eq⟩ := mem_rerank_build w alpha cs k.toNat sc hsc
    refine ⟨c, hc, ?_⟩
    rw [hsc_eq]
    rfl
  refine ⟨hmain, ?_⟩
  intro hdeg sc hsc
  rcases hmain sc hsc with ⟨c, _, h⟩
  rw [h, if_pos hdeg]

/-- C6 witness: the degenerate uniform-score set gets normalized baseline 1
everywhere. -/
theorem rerank_minmax_normalization_witness :
    rerank sampleRegistry sampleUniform 2 none (1 / 2) =
      .ok sampleScoredUniform ∧
    ((∀ sc ∈ sampleScoredUniform, ∃ c,
      sampleUniform[sc.originalRank]? = some c ∧
      sc.baselineScoreNormalized =
        (if maxBaseline sampleUniform = minBaseline sampleUniform then 1
         else (c.baselineScore - minBaseline sampleUniform) /
           (maxBaseline sampleUniform - minBaseline sampleUniform))) ∧
    (maxBaseline sampleUniform = minBaseline sampleUniform →
      ∀ sc ∈ sampleScoredUniform, sc.baselineScoreNormalized = 1)) := by
  have h2 : rerank sampleRegistry sampleUniform 2 none (1 / 2) =
      .ok sampleScoredUniform := by
    norm_num [rerank, scoreAll, scoreWith, mkScored, personaScoreOf,
      featureAt, normFun, minBaseline, maxBaseline, listMin, listMax,
      sortOrd, insertOrd, rankLE, sampleUniform, sampleScoredUniform]
  exact ⟨h2,
    rerank_minmax_normalization sampleRegistry sampleUniform 2 none (1 / 2)
      sampleScoredUniform h2⟩

/-- C8: rerank with alpha = 1 and a (known) persona produces the same ranking
— same provider order and original ranks — as rerank with no persona on the
same candidate set; and rerank with no persona preserves the baseline
ordering of the candidate set (ties by original rank), for any alpha, because
personaScore is 0 for all candidates. -/
theorem rerank_alpha_one_and_baseline_order :
    (∀ (reg : List PersonaProfile) (cs : List Candidate) (k : ℤ)
      (pid : String) (p : PersonaProfile),
      reg.find? (fun q => q.id == pid) = some p → 1 ≤ k → k ≤ 100 →
      ∃ l1 l2, rerank reg cs k (some pid) 1 = .ok l1 ∧
        rerank reg cs k none 1 = .ok l2 ∧
        l1.map (fun sc => sc.providerId) = l2.map (fun sc => sc.providerId) ∧
        l1.map (fun sc => sc.originalRank) =
          l2.map (fun sc => sc.originalRank)) ∧
    (∀ (reg : List PersonaProfile) (cs : List Candidate) (k : ℤ) (alpha : ℚ),
      0 ≤ alpha → alpha ≤ 1 → 1 ≤ k → k ≤ 100 →
      cs.Pairwise (fun c d => d.baselineScore ≤ c.baselineScore) →
      ∃ l, rerank reg cs k none alpha = .ok l ∧
        (∀ sc ∈ l, sc.personaScore = 0) ∧
        l.map (fun sc => sc.originalRank) =
          (List.range cs.length).take k.toNat) := by
  constructor
  · intro reg cs k pid p hp hk1 hk2
    have hcond := rerank_valid_cond (by norm_num) (le_refl (1 : ℚ)) hk1 hk2
    refine ⟨_, _, rerank_some_eq reg cs k pid 1 p hp hcond,
      rerank_none_eq reg cs k 1 hcond, ?_, ?_⟩
    all_goals
      rw [show (sortOrd rankLE (scoreAll [] 1 cs)).take k.toNat =
          ((sortOrd rankLE (scoreAll p.featureWeights 1 cs)).take
            k.toNat).map zeroPersona from by
        unfold scoreAll
        rw [scoreWith_alpha_one_zero p.featureWeights (normFun cs) 0 cs,
          ← map_sortOrd rankLE rankLE zeroPersona (fun _ _ => rfl),
          List.map_take]]
      rw [List.map_map]
      rfl
  · intro reg cs k alpha h0 h1 hk1 hk2 hsorted
    have hcond := rerank_valid_cond h0 h1 hk1 hk2
    refine ⟨_, rerank_none_eq reg cs k alpha hcond, ?_, ?_⟩
    · intro sc hsc
      have hmem : sc ∈ scoreAll [] alpha cs :=
        (sortOrd_perm rankLE _).mem_iff.mp
          ((List.take_sublist _ _).subset hsc)
      exact scoreWith_personaScore_nil 0 cs hmem
    · have hsortedLE : (scoreAll [] alpha cs).Pairwise
          (fun a b => rankLE a b = true) :=
        scoreWith_desc_sorted h0 (normFun cs)
          (fun s t h => normFun_mono cs h) 0 cs hsorted
      rw [sortOrd_of_pairwise rankLE _ hsortedLE, List.map_take]
      unfold scoreAll
      rw [scoreWith_map_rank, List.range_eq_range']

/-- C8 witness: the alpha = 1 persona run matches the no-persona run, and a
no-persona run on a baseline-ordered set keeps the input order, on concrete
inputs. -/
theorem rerank_alpha_one_and_baseline_order_witness :
    (∃ l1 l2, rerank sampleRegistry sampleCandidates 2 (some "sarah") 1 =
        .ok l1 ∧
      rerank sampleRegistry sampleCandidates 2 none 1 = .ok l2 ∧
      l1.map (fun sc => sc.providerId) = l2.map (fun sc => sc.providerId) ∧
      l1.map (fun sc => sc.originalRank) =
        l2.map (fun sc => sc.originalRank)) ∧
    (∃ l, rerank sampleRegistry sampleCandidates 2 none (1 / 2) = .ok l ∧
      (∀ sc ∈ l, sc.personaScore = 0) ∧
      l.map (fun sc => sc.originalRank) =
        (List.range sampleCandidates.length).take (2 : ℤ).toNat) := by
  have h1 : sampleRegistry.find? (fun q => q.id == "sarah") =
      some samplePersona := by
    simp [sampleRegistry, samplePersona]
  have hsorted : sampleCandidates.Pairwise
      (fun c d => d.baselineScore ≤ c.baselineScore) := by
    norm_num [sampleCandidates, List.pairwise_cons]
  exact ⟨rerank_alpha_one_and_baseline_order.1 sampleRegistry sampleCandidates
      2 "sarah" samplePersona h1 (by norm_num) (by norm_num),
    rerank_alpha_one_and_baseline_order.2 sampleRegistry sampleCandidates 2
      (1 / 2) (by norm_num) (by norm_num) (by norm_num) (by norm_num)
      hsorted⟩

/-! ## Feature extractor lemmas -/

theorem clamp01_mem (x : ℝ) : 0 ≤ clamp01 x ∧ clamp01 x ≤ 1 := by
  unfold clamp01
  exact ⟨le_max_left 0 _, max_le (by norm_num) (min_le_right x 1)⟩

theorem invCap_mem {v : ℚ} {cap : ℝ} (hv : 0 ≤ v) (hcap : 0 < cap) :
    0 ≤ 1 - min ((v : ℝ)) cap / cap ∧ 1 - min ((v : ℝ)) cap / cap ≤ 1 := by
  have h0 : (0 : ℝ) ≤ (v : ℝ) := by exact_mod_cast hv
  have hr0 : 0 ≤ min ((v : ℝ)) cap / cap :=
    div_nonneg (le_min h0 hcap.le) hcap.le
  have hr1 : min ((v : ℝ)) cap / cap ≤ 1 :=
    (div_le_one hcap).mpr (min_le_right _ _)
  constructor <;> linarith

theorem capRatio_mem {v : ℚ} {cap : ℝ} (hv : 0 ≤ v) (hcap : 0 < cap) :
    0 ≤ min ((v : ℝ)) cap / cap ∧ min ((v : ℝ)) cap / cap ≤ 1 := by
  have h0 : (0 : ℝ) ≤ (v : ℝ) := by exact_mod_cast hv
  exact ⟨div_nonneg (le_min h0 hcap.le) hcap.le,
    (div_le_one hcap).mpr (min_le_right _ _)⟩

theorem logNorm_mem {v : ℚ} (h0 : 0 ≤ v) (h1 : v ≤ reviewCeiling) :
    0 ≤ Real.log (1 + (v : ℝ)) / Real.log (1 + (reviewCeiling : ℝ)) ∧
      Real.log (1 + (v : ℝ)) / Real.log (1 + (reviewCeiling : ℝ)) ≤ 1 := by
  have hv0 : (0 : ℝ) ≤ (v : ℝ) := by exact_mod_cast h0
  have hv1 : (v : ℝ) ≤ (reviewCeiling : ℝ) := by exact_mod_cast h1
  have hc : (1 : ℝ) < 1 + (reviewCeiling : ℝ) := by
    norm_num [reviewCeiling]
  have hlogc : 0 < Real.log (1 + (reviewCeiling : ℝ)) := Real.log_pos hc
  constructor
  · exact div_nonneg (Real.log_nonneg (by linarith)) hlogc.le
  · rw [div_le_one hlogc]
    exact Real.log_le_log (by linarith) (by linarith)

theorem numFeature_mem (raw : RawAttrs) (k : String) (rule : ℚ → ℝ)
    (hrule : ∀ v, getNum raw k = some v → 0 ≤ rule v ∧ rule v ≤ 1) :
    0 ≤ numFeature raw k rule ∧ numFeature raw k rule ≤ 1 := by
  unfold numFeature
  cases hga : getNum raw k with
  | none => norm_num
  | some v => exact hrule v hga

theorem boolFeature_mem (raw : RawAttrs) (k : String) :
    0 ≤ boolFeature raw k ∧ boolFeature raw k ≤ 1 := by
  unfold boolFeature
  split <;> norm_num

theorem nonnegNum_some {raw : RawAttrs} {k : String} {v : ℚ}
    (h : nonnegNum raw k = true) (hv : getNum raw k = some v) : 0 ≤ v := by
  unfold nonnegNum at h
  rw [hv] at h
  exact of_decide_eq_true h

theorem boundedNum_some {raw : RawAttrs} {k : String} {lo hi v : ℚ}
    (h : boundedNum raw k lo hi = true) (hv : getNum raw k = some v) :
    lo ≤ v ∧ v ≤ hi := by
  unfold boundedNum at h
  rw [hv] at h
  exact of_decide_eq_true h

/-! ## Claim theorems: feature extractor -/

/-- C4: for every well-formed raw attribute record and every feature key,
the extracted feature value lies in the closed interval [0,1]; extract is a
total function, so it never fails on a well-formed record. -/
theorem extract_range_invariant (raw : RawAttrs) (key : FeatureKey)
    (h : wellFormedRaw raw = true) :
    0 ≤ extract raw key ∧ extract raw key ≤ 1 := by
  unfold wellFormedRaw at h
  simp only [Bool.and_eq_true] at h
  obtain ⟨⟨⟨⟨⟨⟨hd, hw⟩, hy⟩, ha7⟩, ha14⟩, ha30⟩, hr⟩ := h
  cases key with
  | distance_miles =>
      exact numFeature_mem raw _ _
        (fun v hv => invCap_mem (nonnegNum_some hd hv) (by norm_num))
  | wait_days =>
      exact numFeature_mem raw _ _
        (fun v hv => invCap_mem (nonnegNum_some hw hv) (by norm_num))
  | average_rating =>
      exact numFeature_mem raw _ _ (fun v _ => clamp01_mem _)
  | num_reviews =>
      exact numFeature_mem raw _ _ (fun v hv =>
        logNorm_mem (boundedNum_some hr hv).1 (boundedNum_some hr hv).2)
  | years_experience =>
      exact numFeature_mem raw _ _
        (fun v hv => capRatio_mem (nonnegNum_some hy hv) (by norm_num))
  | appointments_7d =>
      exact numFeature_mem raw _ _
        (fun v hv => capRatio_mem (nonnegNum_some ha7 hv) (by norm_num))
  | appointments_14d =>
      exact numFeature_mem raw _ _
        (fun v hv => capRatio_mem (nonnegNum_some ha14 hv) (by norm_num))
  | appointments_30d =>
      exact numFeature_mem raw _ _
        (fun v hv => capRatio_mem (nonnegNum_some ha30 hv) (by norm_num))
  | availability_score =>
      exact numFeature_mem raw _ _ (fun v _ => clamp01_mem _)
  | network_breadth =>
      exact numFeature_mem raw _ _ (fun v _ => clamp01_mem _)
  | evening_hours => exact boolFeature_mem raw _
  | weekend_hours => exact boolFeature_mem raw _
  | telehealth_available => exact boolFeature_mem raw _
  | has_rating => exact boolFeature_mem raw _
  | in_network_bcbs => exact boolFeature_mem raw _
  | in_network_uhc => exact boolFeature_mem raw _
  | accepts_medicare => exact boolFeature_mem raw _
  | accepts_medicaid => exact boolFeature_mem raw _
  | speaks_spanish => exact boolFeature_mem raw _
  | speaks_chinese => exact boolFeature_mem raw _
  | accepting_new_patients => exact boolFeature_mem raw _

/-- C4 witness: the range invariant evaluated on a concrete well-formed
record. -/
theorem extract_range_invariant_witness :
    wellFormedRaw sampleRaw = true ∧
    (0 ≤ extract sampleRaw .average_rating ∧
      extract sampleRaw .average_rating ≤ 1) := by
  have h : wellFormedRaw sampleRaw = true := by decide
  exact ⟨h, extract_range_invariant sampleRaw .average_rating h⟩

/-- C7: a numeric source attribute that is missing or non-numeric/NaN
resolves to the neutral default 0.5 (not 0 and not an error), and a missing
boolean attribute resolves to 0. -/
theorem extract_default_policy :
    (∀ (raw : RawAttrs) (key : FeatureKey), key ∈ numericFeatureKeys →
      getNum raw (featureName key) = none → extract raw key = 1 / 2) ∧
    (∀ (raw : RawAttrs) (key : FeatureKey), key ∈ boolFeatureKeys →
      lookupRaw raw (featureName key) = none → extract raw key = 0) := by
  constructor
  · intro raw key hk hnone
    fin_cases hk <;>
      · simp only [featureName] at hnone
        simp only [extract, numFeature, featureName, hnone]
  · intro raw key hk hnone
    have hb : getBool raw (featureName key) = false := by
      unfold getBool
      rw [hnone]
    fin_cases hk <;>
      · simp only [featureName] at hb
        simp only [extract, boolFeature, featureName, hb,
          Bool.false_eq_true, if_false]

/-- C7 witness: a record with a NaN average_rating and no boolean attributes
yields the 0.5 and 0 defaults. -/
theorem extract_default_policy_witness :
    getNum sampleRawMissing (featureName .average_rating) = none ∧
    lookupRaw sampleRawMissing (featureName .evening_hours) = none ∧
    extract sampleRawMissing .average_rating = 1 / 2 ∧
    extract sampleRawMissing .evening_hours = 0 := by
  have h1 : getNum sampleRawMissing (featureName .average_rating) = none := by
    simp [getNum, lookupRaw, sampleRawMissing, featureName, List.find?]
  have h2 : lookupRaw sampleRawMissing (featureName .evening_hours) =
      none := by
    simp [lookupRaw, sampleRawMissing, featureName, List.find?]
  exact ⟨h1, h2,
    extract_default_policy.1 sampleRawMissing .average_rating (by decide) h1,
    extract_default_policy.2 sampleRawMissing .evening_hours (by decide) h2⟩

/-! ## Claim theorems: front-end -/

/-- C3 counterexample: two GET /personas response bodies that differ only in
a persona's description produce identical getPersonas outputs, so the
entries returned by getPersonas cannot carry the persona's description. -/
theorem getPersonas_description_dropped :
    getPersonas ⟨some [⟨"sarah", some "Sarah - Busy Professional",
        some "Prioritizes convenience and availability"⟩]⟩ =
      getPersonas ⟨some [⟨"sarah", some "Sarah - Busy Professional",
        some "Prioritizes quality above all"⟩]⟩ ∧
    (some "Prioritizes convenience and availability" : Option String) ≠
      some "Prioritizes quality above all" := by
  constructor
  · simp [getPersonas, jsOrString]
  · simp

/-- C3 (amended): for every successful GET /personas response whose body
carries a personas array, getPersonas yields one entry per persona of that
array, and each entry carries the persona's id and a name — the persona's
name, falling back to the id when the name is absent or empty; the
description is not included. -/
theorem getPersonas_id_name_entries (body : PersonasResponse)
    (ps : List ApiPersona) (h : body.personas = some ps) :
    (getPersonas body).length = ps.length ∧
    ∀ (i : ℕ) (p : ApiPersona), ps[i]? = some p →
      (getPersonas body)[i]? =
        some ({ id := p.id, name := jsOrString p.name p.id } :
          ClientPersona) := by
  simp only [getPersonas, h]
  constructor
  · exact List.length_map _ _
  · intro i p hp
    rw [List.getElem?_map, hp]
    rfl

/-- C3 witness: the amended entry shape, evaluated on a concrete response. -/
theorem getPersonas_id_name_entries_witness :
    samplePersonasBody.personas = some sampleApiPersonas ∧
    ((getPersonas samplePersonasBody).length = sampleApiPersonas.length ∧
    ∀ (i : ℕ) (p : ApiPersona), sampleApiPersonas[i]? = some p →
      (getPersonas samplePersonasBody)[i]? =
        some ({ id := p.id, name := jsOrString p.name p.id } :
          ClientPersona)) :=
  ⟨rfl, getPersonas_id_name_entries samplePersonasBody sampleApiPersonas rfl⟩

/-- C9: a search submission (Enter key or Search button) invokes onSearch
exactly when the query is non-empty after trimming, and the query passed to
onSearch is always the trimmed text, never the raw input. -/
theorem submitSearch_trimmed (q p : String) :
    (trimString q = "" →
      submitSearch q p = none ∧ handleKeyDown "Enter" q p = none) ∧
    (trimString q ≠ "" →
      submitSearch q p = some (trimString q, p) ∧
        handleKeyDown "Enter" q p = some (trimString q, p)) ∧
    (∀ k, k ≠ "Enter" → handleKeyDown k q p = none) ∧
    (∀ t s, submitSearch q p = some (t, s) →
      t = trimString q ∧ t ≠ "" ∧ s = p) := by
  refine ⟨?_, ?_, ?_, ?_⟩
  · intro h
    constructor <;> simp [submitSearch, handleKeyDown, h]
  · intro h
    constructor <;> simp [submitSearch, handleKeyDown, h]
  · intro k hk
    simp [handleKeyDown, hk]
  · intro t s hts
    unfold submitSearch at hts
    by_cases h : trimString q = ""
    · rw [if_pos h] at hts
      exact Option.noConfusion hts
    · rw [if_neg h] at hts
      simp only [Option.some.injEq, Prod.mk.injEq] at hts
      rcases hts with ⟨h1, h2⟩
      exact ⟨h1.symm, h1 ▸ h, h2.symm⟩

/-- C9 witness: a padded query is trimmed before onSearch, and a
whitespace-only query never reaches onSearch. -/
theorem submitSearch_trimmed_witness :
    trimString "  cardiologist  " ≠ "" ∧
    submitSearch "  cardiologist  " "sarah" = some ("cardiologist", "sarah") ∧
    trimString "   " = "" ∧
    submitSearch "   " "sarah" = none := by
  have h1 : trimString "  cardiologist  " = "cardiologist" := by decide
  have h2 : trimString "   " = "" := by decide
  have h3 : trimString "  cardiologist  " ≠ "" := by
    rw [h1]
    decide
  refine ⟨h3, ?_, h2, ((submitSearch_trimmed "   " "sarah").1 h2).1⟩
  have := ((submitSearch_trimmed "  cardiologist  " "sarah").2.1 h3).1
  rw [h1] at this
  exact this

/-- C10: on mount, when the persona fetch succeeds with a non-empty list and
no value prop was supplied, PersonaSelector selects the first persona of the
list (so the UI does not remain in the no-persona state) and invokes the
onPersonaChange callback with that persona's id. -/
theorem personaSelector_mount_first (p : ClientPersona)
    (rest : List ClientPersona) :
    fetchPersonasSuccess none (p :: rest) =
      ({ personas := p :: rest, selectedPersona := p.id, loading := false,
         error := none }, some p.id) := by
  simp [fetchPersonasSuccess, jsOrString]

end ProviderSearch
